import Mathlib

/-!
Shallow embedding of `src/question_004.py`: a textual polynomial calculator
built from a regex-driven term parser (`parse_polynomial` over the pattern
`REGEX = ((?P<sign>[+-]?\s?)(?P<number>[0-9]+.[0-9]+)x\^(?P<exponent>[0-9]+))+`),
term arithmetic (`PolynomialTerm.__add__/__sub__/__mul__/__str__`) and
polynomial algebra (`Polynomial.__add__/__sub__/__mul__` with the lookup
helpers `contains_exponent` and `exponent_index`).

Strings are modelled as `List Char`; Python floats are modelled as exact
fractions (`PyFloat`, an integer numerator over a natural denominator, kept
unnormalized — every coefficient exercised here is a small decimal, exact in
binary floating point); Python exceptions are modelled with `Except`.
-/

/-- An exact fraction `num / den`, modelling a Python float value.  The
fraction is never reduced; `represents` states which rational it denotes. -/
structure PyFloat where
  num : Int
  den : Nat
deriving DecidableEq, Repr

/-- Proposition that `x` denotes the rational `n / d`. -/
def represents (x : PyFloat) (n : Int) (d : Nat) : Prop :=
  x.num * (d : Int) = n * (x.den : Int)

instance (x : PyFloat) (n : Int) (d : Nat) : Decidable (represents x n d) := by
  unfold represents; infer_instance

/-- Python float addition (exact). -/
def pfAdd (a b : PyFloat) : PyFloat :=
  ⟨a.num * (b.den : Int) + b.num * (a.den : Int), a.den * b.den⟩

/-- Python float subtraction (exact). -/
def pfSub (a b : PyFloat) : PyFloat :=
  ⟨a.num * (b.den : Int) - b.num * (a.den : Int), a.den * b.den⟩

/-- Python float multiplication (exact). -/
def pfMul (a b : PyFloat) : PyFloat :=
  ⟨a.num * b.num, a.den * b.den⟩

/-- Decidable equality for `Except` values, as a boolean. -/
def exceptEqb {ε α : Type} [DecidableEq ε] [DecidableEq α] :
    Except ε α → Except ε α → Bool
  | .ok a, .ok b => decide (a = b)
  | .error e, .error f => decide (e = f)
  | .ok _, .error _ => false
  | .error _, .ok _ => false

instance {ε α : Type} [DecidableEq ε] [DecidableEq α] : DecidableEq (Except ε α) :=
  fun x y =>
    decidable_of_iff (exceptEqb x y = true) (by cases x <;> cases y <;> simp [exceptEqb])

/-- Python `\s` and `str.strip` whitespace characters (ASCII range). -/
def isPySpace (c : Char) : Bool :=
  c = ' ' || c = '\t' || c = '\n' || c = '\r' || c = '\x0B' || c = '\x0C'

/-- Python `str.strip()`: drop leading and trailing whitespace. -/
def stripL (cs : List Char) : List Char :=
  ((cs.dropWhile isPySpace).reverse.dropWhile isPySpace).reverse

/-- Worker for `replaceAllL`; the fuel bounds the number of scan steps, each
of which consumes at least one character of the remaining text. -/
def replaceAllAux : Nat → List Char → List Char → List Char
  | 0, _, s => s
  | _ + 1, _, [] => []
  | fuel + 1, pat, c :: rest =>
    if (!pat.isEmpty && pat.isPrefixOf (c :: rest)) = true then
      replaceAllAux fuel pat ((c :: rest).drop pat.length)
    else
      c :: replaceAllAux fuel pat rest

/-- Python `str.replace(pat, '')`: delete every non-overlapping occurrence of
`pat`, scanning left to right.  (Python treats an empty pattern specially, but
`parse_polynomial` only ever replaces non-empty matched substrings.) -/
def replaceAllL (pat s : List Char) : List Char :=
  replaceAllAux s.length pat s

/-- Numeric value of a run of decimal digit characters. -/
def digitsToNat (ds : List Char) : Nat :=
  ds.foldl (fun a c => 10 * a + (c.toNat - 48)) 0

/-- Optional exponent tail of a Python float literal: empty, or
`e`/`E` followed by an optional sign and one or more digits. -/
def parseFloatExp : List Char → Option Int
  | [] => some (0 : Int)
  | c :: r =>
    if c = 'e' || c = 'E' then
      let p : Int × List Char :=
        match r with
        | '+' :: r2 => (1, r2)
        | '-' :: r2 => (-1, r2)
        | _ => (1, r)
      let ds := p.2.takeWhile Char.isDigit
      if ds.isEmpty then none
      else if (p.2.dropWhile Char.isDigit).isEmpty then
        some (p.1 * (digitsToNat ds : Int))
      else none
    else none

/-- Scale an exact float by a signed power of ten. -/
def applyExp (x : PyFloat) (e : Int) : PyFloat :=
  if 0 ≤ e then ⟨x.num * (10 : Int) ^ e.toNat, x.den⟩
  else ⟨x.num, x.den * (10 : Nat) ^ (-e).toNat⟩

/-- Model of Python `float(text)` on the texts reachable from the parser:
optional surrounding whitespace, optional sign, then `digits`,
`digits.digits`, `digits.`, or `.digits`, with an optional `e`-exponent.
`none` models the plain `ValueError` that `float` raises on any other text. -/
def floatOfText (t0 : List Char) : Option PyFloat :=
  let t := stripL t0
  let p : Int × List Char :=
    match t with
    | '+' :: r => (1, r)
    | '-' :: r => (-1, r)
    | _ => (1, t)
  let ip := p.2.takeWhile Char.isDigit
  let r1 := p.2.dropWhile Char.isDigit
  match ip, r1 with
  | [], '.' :: r2 =>
    let fp := r2.takeWhile Char.isDigit
    if fp.isEmpty then none
    else
      (parseFloatExp (r2.dropWhile Char.isDigit)).map
        (fun e => applyExp ⟨p.1 * (digitsToNat fp : Int), (10 : Nat) ^ fp.length⟩ e)
  | [], _ => none
  | _ :: _, '.' :: r2 =>
    let fp := r2.takeWhile Char.isDigit
    (parseFloatExp (r2.dropWhile Char.isDigit)).map
      (fun e =>
        applyExp
          ⟨p.1 * ((digitsToNat ip : Int) * (10 : Int) ^ fp.length + (digitsToNat fp : Int)),
            (10 : Nat) ^ fp.length⟩ e)
  | _ :: _, r2 =>
    (parseFloatExp r2).map (fun e => applyExp ⟨p.1 * (digitsToNat ip : Int), 1⟩ e)

/-- Captures of one repetition of the term group of `REGEX`. -/
structure UnitM where
  sign : List Char
  number : List Char
  exponent : List Char
deriving DecidableEq, Repr

/-- The text matched by one term group: `match[0]` in `parse_polynomial`. -/
def unitText (u : UnitM) : List Char :=
  u.sign ++ u.number ++ 'x' :: '^' :: u.exponent

/-- Alternatives for `[+-]?\s?` at the head of the input, in the regex
engine's backtracking preference order (greedy options first). -/
def signOpts : List Char → List (List Char × List Char)
  | [] => [([], [])]
  | [c] =>
    (if c = '+' || c = '-' then [([c], [])] else []) ++
    (if isPySpace c then [([c], [])] else []) ++ [([], [c])]
  | c :: c2 :: rest =>
    (if (c = '+' || c = '-') && isPySpace c2 then [([c, c2], rest)] else []) ++
    (if c = '+' || c = '-' then [([c], c2 :: rest)] else []) ++
    (if isPySpace c then [([c], c2 :: rest)] else []) ++
    [([], c :: c2 :: rest)]

/-- Splits `cs = d ++ r` with `d` a non-empty run of digits, longest first:
the backtracking alternatives of a greedy `[0-9]+`. -/
def digitSplits (cs : List Char) : List (List Char × List Char) :=
  let n := (cs.takeWhile Char.isDigit).length
  (List.range n).map (fun k => (cs.take (n - k), cs.drop (n - k)))

/-- Match one repetition of the term group at the head of the input,
returning its captures and the remaining input.  Backtracking follows the
engine order: sign alternatives, then the first `[0-9]+` longest first, then
one arbitrary non-newline character (the dot in `REGEX` is unescaped, so it
is the any-character metacharacter), then the second `[0-9]+`, then literal
`x^`, then a greedy `[0-9]+` exponent. -/
def matchTail (sign numPart : List Char) : List Char → Option (UnitM × List Char)
  | 'x' :: '^' :: r3 =>
    let er := r3.takeWhile Char.isDigit
    if er.isEmpty then none
    else some (⟨sign, numPart, er⟩, r3.drop er.length)
  | _ => none

def matchAfterD1 (sign d1 : List Char) : List Char → Option (UnitM × List Char)
  | [] => none
  | c :: r2 =>
    if c = '\n' then none
    else (digitSplits r2).findSome? fun d2r => matchTail sign (d1 ++ c :: d2r.1) d2r.2

def matchUnitAt (cs : List Char) : Option (UnitM × List Char) :=
  (signOpts cs).findSome? fun sr =>
    (digitSplits sr.2).findSome? fun d1r => matchAfterD1 sr.1 d1r.1 d1r.2

/-- Greedily match one or more consecutive term groups (the outer `(...)+` of
`REGEX`), returning the captures of the LAST repetition — Python's group
semantics for a repeated group — and the input after the whole match. -/
def matchUnitsFrom : Nat → List Char → Option (UnitM × List Char)
  | 0, _ => none
  | fuel + 1, cs =>
    match matchUnitAt cs with
    | none => none
    | some (u, rest) =>
      match matchUnitsFrom fuel rest with
      | some ur2 => some ur2
      | none => some (u, rest)

/-- Model of `re.findall(REGEX, expression)`: scan left to right, collect the group
captures of each non-overlapping match, resuming after each match. -/
def findAllAux : Nat → List Char → List UnitM
  | 0, _ => []
  | _, [] => []
  | fuel + 1, c :: rest =>
    match matchUnitsFrom (rest.length + 2) (c :: rest) with
    | some (u, r2) => u :: findAllAux fuel r2
    | none => findAllAux fuel rest

/-- All matches of `REGEX` in the input, as `re.findall` returns them. -/
def findAll (cs : List Char) : List UnitM :=
  findAllAux cs.length cs

/-- Model of `PolynomialTerm`: the `number` property stores the coefficient as a
float (modelled exactly, by `PyFloat`) and the `exponent` property stores
the exponent as the stripped matched TEXT — a string, not an integer. -/
structure PolynomialTerm where
  number : PyFloat
  exponent : List Char
deriving DecidableEq, Repr

instance : Inhabited PolynomialTerm := ⟨⟨⟨0, 1⟩, []⟩⟩

/-- Failures of `parse_polynomial`.  `noTermsFound` and `unrecognizedResidue`
model the two documented `ParseError` raises; `valueError` models the plain
`ValueError` escaping from `float(...)` inside the `number` setter, which is
NOT a `ParseError`. -/
inductive ParseFailure
  | noTermsFound
  | unrecognizedResidue (residue : List Char)
  | valueError (text : List Char)
deriving DecidableEq, Repr

/-- The `ValueError` raised by `PolynomialTerm.__add__`/`__sub__` on
operands with different exponents. -/
inductive ArithFailure
  | exponentMismatch
deriving DecidableEq, Repr

/-- Model of `PolynomialTerm.__add__`: requires equal exponents, else raises; result
re-enters the constructor, whose exponent setter strips the value. -/
def termAddE (a b : PolynomialTerm) : Except ArithFailure PolynomialTerm :=
  if a.exponent = b.exponent then
    .ok ⟨pfAdd a.number b.number, stripL a.exponent⟩
  else
    .error .exponentMismatch

/-- Model of `PolynomialTerm.__sub__`: same exponent requirement, coefficient
difference. -/
def termSubE (a b : PolynomialTerm) : Except ArithFailure PolynomialTerm :=
  if a.exponent = b.exponent then
    .ok ⟨pfSub a.number b.number, stripL a.exponent⟩
  else
    .error .exponentMismatch

/-- Model of `PolynomialTerm.__mul__`: no exponent check; `self.exponent + t.exponent`
CONCATENATES the two exponent strings (they are `str` values). -/
def termMul (a b : PolynomialTerm) : PolynomialTerm :=
  ⟨pfMul a.number b.number, stripL (a.exponent ++ b.exponent)⟩

/-- Digits of a natural number, most significant first. -/
def natDigitsAux : Nat → Nat → List Char
  | 0, _ => []
  | fuel + 1, n =>
    if n < 10 then [Char.ofNat (n + 48)]
    else natDigitsAux fuel (n / 10) ++ [Char.ofNat (n % 10 + 48)]

def natDigits (n : Nat) : List Char :=
  natDigitsAux (n + 1) n

/-- Decimal digits of the fraction `rem / den` (with `rem < den`) by long
division, shortest terminating form (Python `repr` of a float prints the
shortest round-tripping decimal; on the exact decimal values modelled here
that is the terminating decimal expansion). -/
def fracDigitsOf : Nat → Nat → Nat → List Char
  | 0, _, _ => []
  | fuel + 1, rem, den =>
    if rem = 0 then []
    else Char.ofNat (rem * 10 / den + 48) :: fracDigitsOf fuel (rem * 10 % den) den

/-- Python `str(float)` on the exact decimal values used here, e.g.
`3.5 ↦ "3.5"`, `2 ↦ "2.0"`, `-1.25 ↦ "-1.25"`. -/
def floatRepr (q : PyFloat) : List Char :=
  let n := q.num.natAbs
  let ip := n / q.den
  let rem := n % q.den
  (if q.num < 0 then ['-'] else []) ++ natDigits ip ++
    '.' :: (if rem = 0 then ['0'] else fracDigitsOf 64 rem q.den)

/-- Model of `PolynomialTerm.__str__`: the f-string
`f'{sign}{self.number}x^1{self.exponent}'` — note the literal `1` wedged
between `x^` and the exponent text. -/
def termStr (t : PolynomialTerm) : List Char :=
  (if 0 ≤ t.number.num then ['+'] else []) ++ floatRepr t.number ++
    'x' :: '^' :: '1' :: t.exponent

/-- Model of `Polynomial.__str__`: space-joined term renderings. -/
def polyStr (ts : List PolynomialTerm) : List Char :=
  match ts with
  | [] => []
  | [t] => termStr t
  | t :: rest => termStr t ++ ' ' :: polyStr rest

/-- Model of `Polynomial.contains_exponent`: linear scan for a term with the given
exponent text. -/
def contains_exponent : List PolynomialTerm → List Char → Bool
  | [], _ => false
  | t :: ts, e => if t.exponent = e then true else contains_exponent ts e

/-- Model of `Polynomial.exponent_index`: index of the first term with the given
exponent text, or `None`. -/
def exponent_index : List PolynomialTerm → List Char → Option Nat
  | [], _ => none
  | t :: ts, e =>
    if t.exponent = e then some 0
    else (exponent_index ts e).map (· + 1)

/-- Model of `copy.deepcopy` on a `Polynomial`'s term list: a structural copy. -/
def deepcopyL (ts : List PolynomialTerm) : List PolynomialTerm :=
  ts.map (fun t => ⟨t.number, t.exponent⟩)

/-- The two operands of a polynomial operation, as the mutable state the
operation could touch; every loop step threads it through explicitly. -/
structure PolyPair where
  p : List PolynomialTerm
  q : List PolynomialTerm
deriving DecidableEq, Repr

/-- The loop of `Polynomial.__add__` over the right operand's terms,
mutating only the deep-copied accumulator `res`.  `if not term_index:
continue` skips the merge both for `None` AND for index `0` (the falsy-zero
check), despite the comment `# Code should not enter this branch.` -/
def addLoopSt :
    List PolynomialTerm → List PolynomialTerm → PolyPair →
      Except ArithFailure (List PolynomialTerm) × PolyPair
  | res, [], s => (.ok res, s)
  | res, t :: ts, s =>
    if contains_exponent res t.exponent then
      match exponent_index res t.exponent with
      | none => addLoopSt res ts s
      | some 0 => addLoopSt res ts s
      | some (i + 1) =>
        match termAddE (res.getD (i + 1) default) t with
        | .error e => (.error e, s)
        | .ok t2 => addLoopSt (res.set (i + 1) t2) ts s
    else addLoopSt (res ++ [t]) ts s

/-- The loop of `Polynomial.__sub__`: identical structure, `-=` instead. -/
def subLoopSt :
    List PolynomialTerm → List PolynomialTerm → PolyPair →
      Except ArithFailure (List PolynomialTerm) × PolyPair
  | res, [], s => (.ok res, s)
  | res, t :: ts, s =>
    if contains_exponent res t.exponent then
      match exponent_index res t.exponent with
      | none => subLoopSt res ts s
      | some 0 => subLoopSt res ts s
      | some (i + 1) =>
        match termSubE (res.getD (i + 1) default) t with
        | .error e => (.error e, s)
        | .ok t2 => subLoopSt (res.set (i + 1) t2) ts s
    else subLoopSt (res ++ [t]) ts s

/-- Model of `Polynomial.__add__`: deep-copy the left operand, then merge. -/
def polyAdd (p q : List PolynomialTerm) : Except ArithFailure (List PolynomialTerm) :=
  (addLoopSt (deepcopyL p) q ⟨p, q⟩).1

/-- Model of `Polynomial.__sub__`. -/
def polySub (p q : List PolynomialTerm) : Except ArithFailure (List PolynomialTerm) :=
  (subLoopSt (deepcopyL p) q ⟨p, q⟩).1

/-- Inner loop of `Polynomial.__mul__`: for each term of the right operand,
fold `result += Polynomial(terms=[first_term * second_term])`. -/
def mulInnerSt :
    List PolynomialTerm → PolynomialTerm → List PolynomialTerm → PolyPair →
      Except ArithFailure (List PolynomialTerm) × PolyPair
  | acc, _, [], s => (.ok acc, s)
  | acc, a, b :: bs, s =>
    match addLoopSt (deepcopyL acc) [termMul a b] s with
    | (.error e, s2) => (.error e, s2)
    | (.ok acc2, s2) => mulInnerSt acc2 a bs s2

/-- Outer loop of `Polynomial.__mul__` over the left operand's terms. -/
def mulLoopSt :
    List PolynomialTerm → List PolynomialTerm → List PolynomialTerm → PolyPair →
      Except ArithFailure (List PolynomialTerm) × PolyPair
  | acc, [], _, s => (.ok acc, s)
  | acc, a :: ps, q, s =>
    match mulInnerSt acc a q s with
    | (.error e, s2) => (.error e, s2)
    | (.ok acc2, s2) => mulLoopSt acc2 ps q s2

/-- Model of `Polynomial.__mul__`: full distribution, folded through `__add__`. -/
def polyMul (p q : List PolynomialTerm) : Except ArithFailure (List PolynomialTerm) :=
  (mulLoopSt [] p q ⟨p, q⟩).1

/-- The coefficient text handed to `float` by the `PolynomialTerm`
constructor: `f'{sign.strip()}{number}'`. -/
def numTextOf (m : UnitM) : List Char :=
  stripL m.sign ++ m.number

/-- The loop of `parse_polynomial` over the matches: delete the matched
substring from the working copy (`str.replace` deletes EVERY occurrence),
strip, then construct the term (where `float` may raise `ValueError`);
after the loop, any non-empty working copy is an unrecognized residue. -/
def parseLoop :
    List UnitM → List Char → List PolynomialTerm →
      Except ParseFailure (List PolynomialTerm)
  | [], w, acc => if w = [] then .ok acc.reverse else .error (.unrecognizedResidue w)
  | m :: ms, w, acc =>
    let w2 := stripL (replaceAllL (unitText m) w)
    match floatOfText (numTextOf m) with
    | none => .error (.valueError (numTextOf m))
    | some x => parseLoop ms w2 (⟨x, stripL m.exponent⟩ :: acc)

/-- Model of `parse_polynomial(expression)`. -/
def parse_polynomial (cs : List Char) : Except ParseFailure (List PolynomialTerm) :=
  let ms := findAll cs
  if ms = [] then .error .noTermsFound
  else parseLoop ms cs []

/-- The working copy after the whole removal pass of `parse_polynomial`:
fold deleting every occurrence of each matched substring, stripping after
each deletion. -/
def residueAfterRemoval (cs : List Char) : List Char :=
  (findAll cs).foldl (fun w m => stripL (replaceAllL (unitText m) w)) cs

/-- Membership in the documented `ParseError` taxonomy: `NoTermsFound` and
`UnrecognizedResidue` are `ParseError` raises; the `ValueError` escaping
from `float` is not. -/
def inParseErrorTaxonomy : ParseFailure → Bool
  | .noTermsFound => true
  | .unrecognizedResidue _ => true
  | .valueError _ => false

/-- The deep copy taken by the algebra operations preserves term values. -/
theorem deepcopyL_id (ts : List PolynomialTerm) : deepcopyL ts = ts := by
  induction ts with
  | nil => rfl
  | cons t ts ih => simp only [deepcopyL, List.map_cons] at ih ⊢; rw [ih]

/-- The `__add__` merge loop returns the operand state untouched. -/
theorem addLoopSt_snd (ts : List PolynomialTerm) :
    ∀ res s, (addLoopSt res ts s).2 = s := by
  induction ts with
  | nil => intro res s; rfl
  | cons t ts ih =>
    intro res s
    simp only [addLoopSt]
    split
    · split
      · exact ih _ _
      · exact ih _ _
      · split
        · rfl
        · exact ih _ _
    · exact ih _ _

/-- The `__sub__` merge loop returns the operand state untouched. -/
theorem subLoopSt_snd (ts : List PolynomialTerm) :
    ∀ res s, (subLoopSt res ts s).2 = s := by
  induction ts with
  | nil => intro res s; rfl
  | cons t ts ih =>
    intro res s
    simp only [subLoopSt]
    split
    · split
      · exact ih _ _
      · exact ih _ _
      · split
        · rfl
        · exact ih _ _
    · exact ih _ _

/-- The inner `__mul__` loop returns the operand state untouched. -/
theorem mulInnerSt_snd (bs : List PolynomialTerm) :
    ∀ acc a s, (mulInnerSt acc a bs s).2 = s := by
  induction bs with
  | nil => intro acc a s; rfl
  | cons b bs ih =>
    intro acc a s
    simp only [mulInnerSt]
    split
    · next e s2 heq =>
      have h2 := congrArg Prod.snd heq
      simp only [addLoopSt_snd] at h2
      exact h2.symm
    · next acc2 s2 heq =>
      have h2 := congrArg Prod.snd heq
      simp only [addLoopSt_snd] at h2
      rw [ih acc2 a s2, ← h2]

/-- The outer `__mul__` loop returns the operand state untouched. -/
theorem mulLoopSt_snd (ps : List PolynomialTerm) :
    ∀ acc q s, (mulLoopSt acc ps q s).2 = s := by
  induction ps with
  | nil => intro acc q s; rfl
  | cons a ps ih =>
    intro acc q s
    simp only [mulLoopSt]
    split
    · next e s2 heq =>
      have h2 := congrArg Prod.snd heq
      simp only [mulInnerSt_snd] at h2
      exact h2.symm
    · next acc2 s2 heq =>
      have h2 := congrArg Prod.snd heq
      simp only [mulInnerSt_snd] at h2
      rw [ih acc2 q s2, ← h2]

/-- C9: each algebra operation reads a copy of the left operand, returns its
result as a pure function of the operand values, and leaves the operand
state unchanged; the deep copy itself preserves the operand's terms. -/
theorem operations_preserve_operands :
    ∀ s : PolyPair,
      deepcopyL s.p = s.p ∧
      addLoopSt (deepcopyL s.p) s.q s = (polyAdd s.p s.q, s) ∧
      subLoopSt (deepcopyL s.p) s.q s = (polySub s.p s.q, s) ∧
      mulLoopSt [] s.p s.q s = (polyMul s.p s.q, s) := by
  intro s
  refine ⟨deepcopyL_id s.p, ?_, ?_, ?_⟩
  · exact Prod.ext rfl (addLoopSt_snd _ _ _)
  · exact Prod.ext rfl (subLoopSt_snd _ _ _)
  · exact Prod.ext rfl (mulLoopSt_snd _ _ _ _)

/-- C6: term-level add and subtract fail with the exponent-mismatch error
exactly when the operand exponents differ (in particular on the claim's own
pair of exponents 1 and 2); on equal exponents they return the coefficient
sum (resp. difference) and keep the left operand's exponent (which is
already stripped text for every constructor-produced term). -/
theorem term_add_sub_exponent_mismatch :
    (∀ a b : PolynomialTerm, a.exponent = b.exponent →
      stripL a.exponent = a.exponent →
      termAddE a b = .ok ⟨pfAdd a.number b.number, a.exponent⟩ ∧
      termSubE a b = .ok ⟨pfSub a.number b.number, a.exponent⟩) ∧
    (∀ a b : PolynomialTerm, a.exponent ≠ b.exponent →
      termAddE a b = .error .exponentMismatch ∧
      termSubE a b = .error .exponentMismatch) ∧
    termAddE ⟨⟨1, 1⟩, ['1']⟩ ⟨⟨1, 1⟩, ['2']⟩ = .error .exponentMismatch ∧
    termSubE ⟨⟨1, 1⟩, ['1']⟩ ⟨⟨1, 1⟩, ['2']⟩ = .error .exponentMismatch := by
  refine ⟨?_, ?_, by decide, by decide⟩
  · intro a b he hs
    unfold termAddE termSubE
    rw [if_pos he, if_pos he, hs]
    exact ⟨rfl, rfl⟩
  · intro a b he
    unfold termAddE termSubE
    rw [if_neg he, if_neg he]
    exact ⟨rfl, rfl⟩

/-- Witness for C6 at concrete terms: matching exponents add the
coefficients, the claim's mismatching pair fails. -/
theorem term_add_sub_exponent_mismatch_witness :
    termAddE ⟨⟨2, 1⟩, ['3']⟩ ⟨⟨5, 1⟩, ['3']⟩ =
      .ok ⟨pfAdd ⟨2, 1⟩ ⟨5, 1⟩, ['3']⟩ ∧
    termAddE ⟨⟨1, 1⟩, ['1']⟩ ⟨⟨1, 1⟩, ['2']⟩ = .error .exponentMismatch := by
  constructor
  · exact (term_add_sub_exponent_mismatch.1 ⟨⟨2, 1⟩, ['3']⟩ ⟨⟨5, 1⟩, ['3']⟩ rfl rfl).1
  · exact
      (term_add_sub_exponent_mismatch.2.1 ⟨⟨1, 1⟩, ['1']⟩ ⟨⟨1, 1⟩, ['2']⟩ (by decide)).1

/-- C1: evaluating the code on the claim's own end-to-end input.  Both
operands parse as claimed, but `__add__` does NOT merge the matching
exponent-1 terms: `exponent_index` returns `0` and `if not term_index:
continue` treats the valid index `0` as "not found", so the result keeps
coefficient 2.0 where the claim requires 3.0. -/
theorem polynomial_add_skips_merge_at_position_zero :
    parse_polynomial "+2.0x^1 +3.0x^0".toList =
      .ok [⟨⟨20, 10⟩, ['1']⟩, ⟨⟨30, 10⟩, ['0']⟩] ∧
    parse_polynomial "+1.0x^1".toList = .ok [⟨⟨10, 10⟩, ['1']⟩] ∧
    polyAdd [⟨⟨20, 10⟩, ['1']⟩, ⟨⟨30, 10⟩, ['0']⟩] [⟨⟨10, 10⟩, ['1']⟩] =
      .ok [⟨⟨20, 10⟩, ['1']⟩, ⟨⟨30, 10⟩, ['0']⟩] ∧
    represents ⟨20, 10⟩ 2 1 ∧ ¬ represents ⟨20, 10⟩ 3 1 := by decide

/-- C2: term multiplication CONCATENATES the exponent strings instead of
adding them arithmetically: exponent 1 times exponent 1 yields exponent
text `11`, not `2`, at the term level and end-to-end through `__mul__`. -/
theorem term_mul_concatenates_exponent_text :
    termMul ⟨⟨1, 1⟩, ['1']⟩ ⟨⟨1, 1⟩, ['1']⟩ = ⟨⟨1, 1⟩, ['1', '1']⟩ ∧
    polyMul [⟨⟨2, 1⟩, ['1']⟩] [⟨⟨3, 1⟩, ['1']⟩] = .ok [⟨⟨6, 1⟩, ['1', '1']⟩] ∧
    (['1', '1'] : List Char) ≠ ['2'] := by decide

/-- C3: rendering the term parsed from `+3.50x^2` produces `+3.5x^12`, not
`+3.5x^2`: the marker emitted by `__str__` is the literal `x^1` (a stray
`1` sits in the f-string before the exponent text). -/
theorem term_render_inserts_stray_one :
    parse_polynomial "+3.50x^2".toList = .ok [⟨⟨350, 100⟩, ['2']⟩] ∧
    represents ⟨350, 100⟩ 7 2 ∧
    termStr ⟨⟨350, 100⟩, ['2']⟩ = "+3.5x^12".toList ∧
    polyStr [⟨⟨350, 100⟩, ['2']⟩] = "+3.5x^12".toList ∧
    "+3.5x^12".toList ≠ "+3.5x^2".toList := by decide

/-- C7: evaluating `__sub__` where the matching exponent sits at position 0:
the merge is skipped (coefficient stays 3.0 instead of the term-wise
difference 2.0), while an unmatched subtrahend term is appended as-is with
its coefficient not negated. -/
theorem polynomial_sub_skips_merge_at_position_zero :
    polySub [⟨⟨3, 1⟩, ['1']⟩] [⟨⟨1, 1⟩, ['1']⟩] = .ok [⟨⟨3, 1⟩, ['1']⟩] ∧
    pfSub ⟨3, 1⟩ ⟨1, 1⟩ = ⟨2, 1⟩ ∧
    (⟨3, 1⟩ : PyFloat) ≠ ⟨2, 1⟩ ∧
    polySub [⟨⟨3, 1⟩, ['1']⟩] [⟨⟨1, 1⟩, ['2']⟩] =
      .ok [⟨⟨3, 1⟩, ['1']⟩, ⟨⟨1, 1⟩, ['2']⟩] := by decide

/-- C10: on `1a5x^2` the unescaped dot of `REGEX` matches the `a`, the
matched coefficient text `1a5` reaches `float`, and the failure is the
untyped `ValueError` from the conversion — outside the documented
`ParseError` taxonomy. -/
theorem parse_raises_untyped_value_error :
    parse_polynomial "1a5x^2".toList = .error (.valueError "1a5".toList) ∧
    floatOfText "1a5".toList = none ∧
    inParseErrorTaxonomy (.valueError "1a5".toList) = false ∧
    inParseErrorTaxonomy .noTermsFound = true ∧
    inParseErrorTaxonomy (.unrecognizedResidue "extra".toList) = true := by decide

/-- Counterexample to C5: `+1.0x^1 +1.0x^12` is a whitespace-separated
concatenation of two individually valid term tokens, yet parsing fails:
`str.replace` deletes EVERY occurrence of `+1.0x^1`, including the prefix
of `+1.0x^12`, leaving the residue `2`. -/
theorem token_tiling_parse_failure :
    parse_polynomial "+1.0x^1".toList = .ok [⟨⟨10, 10⟩, ['1']⟩] ∧
    parse_polynomial "+1.0x^12".toList = .ok [⟨⟨10, 10⟩, ['1', '2']⟩] ∧
    parse_polynomial "+1.0x^1 +1.0x^12".toList =
      .error (.unrecognizedResidue ['2']) := by decide

/-- Counterexample to C4: `123x^4` has a bare-integer coefficient with no
literal decimal point, yet the parser accepts it as a term with coefficient
123.0 — the dot in `REGEX` is unescaped and matches the middle digit. -/
theorem parser_accepts_bare_integer_coefficient :
    parse_polynomial "123x^4".toList = .ok [⟨⟨123, 1⟩, ['4']⟩] ∧
    represents ⟨123, 1⟩ 123 1 := by decide

/-- Helper `contains_exponent` is true exactly when some term has the exponent. -/
theorem contains_exponent_iff (ts : List PolynomialTerm) (e : List Char) :
    contains_exponent ts e = true ↔ ∃ t ∈ ts, t.exponent = e := by
  induction ts with
  | nil => simp [contains_exponent]
  | cons t ts ih =>
    simp only [contains_exponent]
    by_cases h : t.exponent = e
    · simp [h]
    · simp [h, ih]

/-- Helper `exponent_index` returns `some i` exactly when position `i` holds the
FIRST term carrying the requested exponent. -/
theorem exponent_index_some_iff (e : List Char) :
    ∀ (ts : List PolynomialTerm) (i : Nat),
      exponent_index ts e = some i ↔
        ((∃ t, ts[i]? = some t ∧ t.exponent = e) ∧
          ∀ j, j < i → ∀ t2, ts[j]? = some t2 → t2.exponent ≠ e) := by
  intro ts
  induction ts with
  | nil => intro i; simp [exponent_index]
  | cons t ts ih =>
    intro i
    simp only [exponent_index]
    by_cases h : t.exponent = e
    · rw [if_pos h]
      cases i with
      | zero =>
        simp only [List.getElem?_cons_zero]
        constructor
        · intro _
          exact ⟨⟨t, rfl, h⟩, fun j hj => absurd hj (Nat.not_lt_zero j)⟩
        · intro _
          trivial
      | succ i2 =>
        constructor
        · intro hc
          exact absurd hc (by simp)
        · rintro ⟨_, hall⟩
          exact absurd h (hall 0 (Nat.succ_pos i2) t (by simp))
    · rw [if_neg h]
      cases i with
      | zero =>
        constructor
        · intro hc
          cases hx : exponent_index ts e with
          | none => rw [hx] at hc; exact absurd hc (by simp)
          | some a => rw [hx] at hc; simp at hc
        · rintro ⟨⟨t2, ht2, he2⟩, _⟩
          simp only [List.getElem?_cons_zero, Option.some.injEq] at ht2
          subst ht2
          exact absurd he2 h
      | succ i2 =>
        have hmap : (exponent_index ts e).map (· + 1) = some (i2 + 1) ↔
            exponent_index ts e = some i2 := by
          cases hx : exponent_index ts e <;> simp
        rw [hmap, ih i2]
        constructor
        · rintro ⟨⟨t2, ht2, he2⟩, hall⟩
          refine ⟨⟨t2, by simpa using ht2, he2⟩, ?_⟩
          intro j hj t3 ht3
          cases j with
          | zero =>
            simp only [List.getElem?_cons_zero, Option.some.injEq] at ht3
            subst ht3
            exact h
          | succ j2 =>
            exact hall j2 (by omega) t3 (by simpa using ht3)
        · rintro ⟨⟨t2, ht2, he2⟩, hall⟩
          refine ⟨⟨t2, by simpa using ht2, he2⟩, ?_⟩
          intro j2 hj2 t3 ht3
          exact hall (j2 + 1) (by omega) t3 (by simpa using ht3)

/-- Helper `exponent_index` returns `None` exactly when no term has the exponent. -/
theorem exponent_index_none_iff (ts : List PolynomialTerm) (e : List Char) :
    exponent_index ts e = none ↔ ∀ t ∈ ts, t.exponent ≠ e := by
  induction ts with
  | nil => simp [exponent_index]
  | cons t ts ih =>
    simp only [exponent_index]
    by_cases h : t.exponent = e
    · simp [h]
    · simp [h, ih, Option.map_eq_none']

/-- C8: the lookup helpers — `contains_exponent` is a linear scan for the
exponent, `exponent_index` returns the first matching position or `None`,
and a polynomial whose first term has exponent `0` is found at position 0,
not reported as "not found". -/
theorem lookup_helpers_first_match :
    (∀ ts e, contains_exponent ts e = true ↔ ∃ t ∈ ts, t.exponent = e) ∧
    (∀ ts e i, exponent_index ts e = some i ↔
      ((∃ t, ts[i]? = some t ∧ t.exponent = e) ∧
        ∀ j, j < i → ∀ t2, ts[j]? = some t2 → t2.exponent ≠ e)) ∧
    (∀ ts e, exponent_index ts e = none ↔ ∀ t ∈ ts, t.exponent ≠ e) ∧
    (∀ (t : PolynomialTerm) ts, t.exponent = ['0'] →
      exponent_index (t :: ts) ['0'] = some 0 ∧
      contains_exponent (t :: ts) ['0'] = true) := by
  refine ⟨contains_exponent_iff, fun ts e i => exponent_index_some_iff e ts i,
    exponent_index_none_iff, ?_⟩
  intro t ts h
  constructor
  · simp [exponent_index, h]
  · simp [contains_exponent, h]

/-- Witness for C8: a one-term polynomial whose only term has exponent text
`0` is found by the lookup helpers at position 0. -/
theorem lookup_helpers_first_match_witness :
    exponent_index [(⟨⟨5, 1⟩, ['0']⟩ : PolynomialTerm)] ['0'] = some 0 ∧
    contains_exponent [(⟨⟨5, 1⟩, ['0']⟩ : PolynomialTerm)] ['0'] = true :=
  lookup_helpers_first_match.2.2.2 ⟨⟨5, 1⟩, ['0']⟩ [] rfl

/-- The parse loop fails with an unrecognized residue exactly when every
matched coefficient text converts to a float and the working copy — after
deleting every occurrence of each matched substring and stripping — is
non-empty at the end. -/
theorem parseLoop_residue_iff :
    ∀ (ms : List UnitM) (w : List Char) (acc : List PolynomialTerm) (r : List Char),
      parseLoop ms w acc = .error (.unrecognizedResidue r) ↔
        ((∀ m ∈ ms, (floatOfText (numTextOf m)).isSome) ∧
          r = ms.foldl (fun w2 m => stripL (replaceAllL (unitText m) w2)) w ∧
          r ≠ []) := by
  intro ms
  induction ms with
  | nil =>
    intro w acc r
    simp only [parseLoop, List.foldl_nil]
    by_cases hw : w = []
    · subst hw
      simp
    · rw [if_neg hw]
      constructor
      · intro hc
        injection hc with h1
        injection h1 with h2
        exact ⟨by simp, h2.symm, h2 ▸ hw⟩
      · rintro ⟨_, hr, _⟩
        subst hr
        rfl
  | cons m ms ih =>
    intro w acc r
    simp only [parseLoop, List.foldl_cons]
    cases hf : floatOfText (numTextOf m) with
    | none => simp [hf]
    | some x =>
      simp only [hf]
      rw [ih]
      simp [hf]

/-- C5 (amended): `parse_polynomial` fails with `UnrecognizedResidue(r)`
exactly when the input has at least one match, every matched coefficient
converts to a float, and the working copy is non-empty after deleting EVERY
textual occurrence of each matched substring (`str.replace` semantics, not
first-occurrence) with stripping after each deletion; in particular
`+1.0x^2 extra` fails with residue `extra`. -/
theorem unrecognized_residue_characterization :
    (∀ cs r, parse_polynomial cs = .error (.unrecognizedResidue r) ↔
      (findAll cs ≠ [] ∧ (∀ m ∈ findAll cs, (floatOfText (numTextOf m)).isSome) ∧
        r = residueAfterRemoval cs ∧ r ≠ [])) ∧
    parse_polynomial "+1.0x^2 extra".toList =
      .error (.unrecognizedResidue "extra".toList) := by
  constructor
  · intro cs r
    simp only [parse_polynomial, residueAfterRemoval]
    by_cases hm : findAll cs = []
    · rw [if_pos hm]
      simp [hm]
    · rw [if_neg hm]
      rw [parseLoop_residue_iff]
      simp [hm]
  · decide

/-- Witness for C5: the characterization applied at a concrete input with a
stray leading character, producing exactly that character as residue. -/
theorem unrecognized_residue_characterization_witness :
    parse_polynomial "z 1.0x^2".toList = .error (.unrecognizedResidue ['z']) :=
  (unrecognized_residue_characterization.1 "z 1.0x^2".toList ['z']).mpr
    ⟨by decide, by decide, by decide, by decide⟩

/-- Every split `digitSplits` returns is a non-empty all-digit prefix
together with the matching remainder. -/
theorem digitSplits_spec (cs : List Char) :
    ∀ pr ∈ digitSplits cs,
      pr.1 ≠ [] ∧ (∀ c ∈ pr.1, c.isDigit) ∧ cs = pr.1 ++ pr.2 := by
  rintro ⟨d, r⟩ hpr
  simp only [digitSplits, List.mem_map, List.mem_range, Prod.mk.injEq] at hpr
  obtain ⟨k, hk, hd, hr⟩ := hpr
  subst hd
  subst hr
  have hncs : (cs.takeWhile Char.isDigit).length ≤ cs.length :=
    (List.takeWhile_prefix _).length_le
  refine ⟨?_, ?_, (List.take_append_drop _ _).symm⟩
  · have hlen : (cs.take ((cs.takeWhile Char.isDigit).length - k)).length =
        (cs.takeWhile Char.isDigit).length - k := by
      rw [List.length_take]
      omega
    intro hempty
    have hempty2 : cs.take ((cs.takeWhile Char.isDigit).length - k) = ([] : List Char) :=
      hempty
    rw [hempty2] at hlen
    simp at hlen
    omega
  · intro c hc0
    have hc : c ∈ cs.take ((cs.takeWhile Char.isDigit).length - k) := hc0
    have hm : (cs.takeWhile Char.isDigit).length - k ≤
        (cs.takeWhile Char.isDigit).length := by omega
    have h1 : (cs.takeWhile Char.isDigit).take ((cs.takeWhile Char.isDigit).length - k) =
        (cs.take ((cs.takeWhile Char.isDigit).length - k)).takeWhile Char.isDigit :=
      List.take_takeWhile _ _
    have hlen1 : ((cs.takeWhile Char.isDigit).take
        ((cs.takeWhile Char.isDigit).length - k)).length =
        (cs.takeWhile Char.isDigit).length - k := by
      rw [List.length_take]
      omega
    have hlen2 : (cs.take ((cs.takeWhile Char.isDigit).length - k)).length =
        (cs.takeWhile Char.isDigit).length - k := by
      rw [List.length_take]
      omega
    have heq2 : (cs.take ((cs.takeWhile Char.isDigit).length - k)).takeWhile Char.isDigit =
        cs.take ((cs.takeWhile Char.isDigit).length - k) :=
      (List.takeWhile_prefix _).eq_of_length (by rw [← h1, hlen1, hlen2])
    rw [← heq2] at hc
    exact List.mem_takeWhile_imp hc

/-- Any coefficient text `matchUnitAt` accepts has the shape: a non-empty
digit run, ONE arbitrary non-newline character (the unescaped dot of
`REGEX`), and another non-empty digit run. -/
theorem matchUnitAt_number_shape (cs : List Char) (u : UnitM) (rest : List Char)
    (h : matchUnitAt cs = some (u, rest)) :
    ∃ d1 c d2, u.number = d1 ++ c :: d2 ∧ d1 ≠ [] ∧ d2 ≠ [] ∧
      (∀ x ∈ d1, x.isDigit) ∧ (∀ x ∈ d2, x.isDigit) ∧ c ≠ '\n' := by
  unfold matchUnitAt at h
  obtain ⟨sr, hsr, h1⟩ := List.exists_of_findSome?_eq_some h
  obtain ⟨d1r, hd1, h2⟩ := List.exists_of_findSome?_eq_some h1
  obtain ⟨hd1ne, hd1dig, _⟩ := digitSplits_spec _ _ hd1
  cases hcase : d1r.2 with
  | nil =>
    rw [hcase] at h2
    exact absurd h2 (by simp [matchAfterD1])
  | cons c r2 =>
    rw [hcase] at h2
    simp only [matchAfterD1] at h2
    by_cases hnl : c = '\n'
    · rw [if_pos hnl] at h2
      exact absurd h2 (by simp)
    · rw [if_neg hnl] at h2
      obtain ⟨d2r, hd2, h3⟩ := List.exists_of_findSome?_eq_some h2
      obtain ⟨hd2ne, hd2dig, _⟩ := digitSplits_spec _ _ hd2
      unfold matchTail at h3
      split at h3
      next x r3 heq3 =>
        simp only [] at h3
        split at h3
        · exact absurd h3 (by simp)
        · simp only [Option.some.injEq, Prod.mk.injEq] at h3
          obtain ⟨hu, _⟩ := h3
          subst hu
          exact ⟨d1r.1, c, d2r.1, rfl, hd1ne, hd2ne, hd1dig, hd2dig, hnl⟩
      next => exact absurd h3 (by simp)

/-- C4 (amended): the coefficient component of a term token is a non-empty
digit run, one arbitrary non-newline character, and a non-empty digit run —
the dot in `REGEX` is unescaped, so a literal decimal point is NOT required:
`123x^4` (bare three-digit integer) is accepted, while `12x^4` (too short
for the digits, any character, digits shape) finds no term. -/
theorem coefficient_token_shape :
    (∀ cs u rest, matchUnitAt cs = some (u, rest) →
      ∃ d1 c d2, u.number = d1 ++ c :: d2 ∧ d1 ≠ [] ∧ d2 ≠ [] ∧
        (∀ x ∈ d1, x.isDigit) ∧ (∀ x ∈ d2, x.isDigit) ∧ c ≠ '\n') ∧
    parse_polynomial "123x^4".toList = .ok [⟨⟨123, 1⟩, ['4']⟩] ∧
    parse_polynomial "12x^4".toList = .error .noTermsFound ∧
    parse_polynomial "+1.0x^2".toList = .ok [⟨⟨10, 10⟩, ['2']⟩] :=
  ⟨matchUnitAt_number_shape, by decide, by decide, by decide⟩

/-- Witness for C4: the shape theorem applied to the concrete match of
`1.0x^2`. -/
theorem coefficient_token_shape_witness :
    ∃ d1 c d2, (⟨[], ['1', '.', '0'], ['2']⟩ : UnitM).number = d1 ++ c :: d2 ∧
      d1 ≠ [] ∧ d2 ≠ [] ∧ (∀ x ∈ d1, x.isDigit) ∧ (∀ x ∈ d2, x.isDigit) ∧
      c ≠ '\n' :=
  coefficient_token_shape.1 "1.0x^2".toList ⟨[], ['1', '.', '0'], ['2']⟩ [] (by decide)

/-- Witness for C9: running `__add__` on a concrete operand pair returns the
pure result and the untouched operands. -/
theorem operations_preserve_operands_witness :
    addLoopSt (deepcopyL [⟨⟨2, 1⟩, ['1']⟩]) [⟨⟨4, 1⟩, ['0']⟩]
        ⟨[⟨⟨2, 1⟩, ['1']⟩], [⟨⟨4, 1⟩, ['0']⟩]⟩ =
      (polyAdd [⟨⟨2, 1⟩, ['1']⟩] [⟨⟨4, 1⟩, ['0']⟩],
        ⟨[⟨⟨2, 1⟩, ['1']⟩], [⟨⟨4, 1⟩, ['0']⟩]⟩) :=
  (operations_preserve_operands ⟨[⟨⟨2, 1⟩, ['1']⟩], [⟨⟨4, 1⟩, ['0']⟩]⟩).2.1

